import Mathlib

/-!
Verification development for the pyGenomeViz repository
(`src/pygenomeviz/genbank.py` and `src/pygenomeviz/scripts/mummer.py`).

The Python data model and operations are shallowly embedded as executable
Lean definitions: sequences are `List Char`, Python integers are `Int`/`Nat`,
Python floats arising from exact integer arithmetic are `ℚ`, and fallible
Python code (raised exceptions) is modelled with `Except String`.
-/

set_option maxHeartbeats 1600000

namespace PyGenomeViz

/-- A single simple location part of a Biopython feature location.
`start`/`stop` are the part's `FeatureLocation.parts[i].start`/`.end`
offsets, already converted to plain integers the way `Genbank._to_int`
does (boundary markers stripped). -/
structure Part where
  start : Int
  stop : Int
deriving Repr, DecidableEq

/-- A GenBank feature as consumed by `Genbank.extract_features`:
type tag (`f.type`), strand (`f.strand`, `1`/`-1`), the location parts
(`f.location.parts`, always non-empty for parsed features, modelled as
`firstPart :: restParts`), and the first element of the `translation`
qualifier list (`f.qualifiers.get("translation", [None])[0]`), `none`
when the qualifier is absent. -/
structure Feature where
  ftype : String
  strand : Int
  firstPart : Part
  restParts : List Part
  translation : Option String
deriving Repr, DecidableEq

/-- A parsed GenBank `SeqRecord`: its per-base sequence and its features. -/
structure SeqRecord where
  seq : List Char
  features : List Feature
deriving Repr, DecidableEq

/-- Base complement used by the external library's `reverse_complement`
(Biopython ambiguous-DNA complement table, upper and lower case; the
self-complementary codes `W`, `S`, `N`, `X` and characters outside the
table are left unchanged). -/
def complementBase : Char → Char
  | 'A' => 'T' | 'T' => 'A'
  | 'G' => 'C' | 'C' => 'G'
  | 'a' => 't' | 't' => 'a'
  | 'g' => 'c' | 'c' => 'g'
  | 'M' => 'K' | 'K' => 'M'
  | 'R' => 'Y' | 'Y' => 'R'
  | 'V' => 'B' | 'B' => 'V'
  | 'H' => 'D' | 'D' => 'H'
  | 'm' => 'k' | 'k' => 'm'
  | 'r' => 'y' | 'y' => 'r'
  | 'v' => 'b' | 'b' => 'v'
  | 'h' => 'd' | 'd' => 'h'
  | c => c

/-- Reverse complement of a per-base sequence (the sequence-level effect of
the external library's `SeqRecord.reverse_complement`). -/
def revCompSeq (s : List Char) : List Char :=
  (s.map complementBase).reverse

/-- The reverse transformation used by the `Genbank.records` property for
`reverse=True`: reverse-complement each record's sequence, then reverse the
record order (`list(reversed([r.reverse_complement() for r in records]))`).
The external library also mirrors each record's features; only the
sequence-level effect is modelled here. -/
def recTransform (rs : List SeqRecord) : List SeqRecord :=
  (rs.map fun r => { r with seq := revCompSeq r.seq }).reverse

/-- Concatenation of per-record sequences
(`"".join(str(r.seq) for r in records)`). -/
def concatSeq : List SeqRecord → List Char
  | [] => []
  | r :: rs => r.seq ++ concatSeq rs

/-- The `Genbank` object state after construction: the parsed records
(`self._records`), the reverse flag and the validated range bounds. -/
structure Genbank where
  recs : List SeqRecord
  reverse : Bool
  min_range : Int
  max_range : Int
deriving Repr, DecidableEq

/-- The `Genbank.records` property: original records, or the
reverse-complemented/reordered form when the reverse flag is set. -/
def Genbank.records (gb : Genbank) : List SeqRecord :=
  if gb.reverse then recTransform gb.recs else gb.recs

/-- Python slice `s[a:b]` on a character sequence, with Python's
negative-index and clamping semantics. -/
def pySlice (s : List Char) (a b : Int) : List Char :=
  let n : Int := s.length
  let a' : Nat := if a < 0 then (n + a).toNat else min a.toNat s.length
  let b' : Nat := if b < 0 then (n + b).toNat else min b.toNat s.length
  (s.drop a').take (b' - a')

/-- `Genbank.full_genome_seq`: concatenation of per-record sequences. -/
def Genbank.full_genome_seq (gb : Genbank) : List Char :=
  concatSeq gb.records

/-- `Genbank.genome_seq`: the concatenated sequence sliced to the
configured range (`seq[self.min_range : self.max_range]`). -/
def Genbank.genome_seq (gb : Genbank) : List Char :=
  pySlice (concatSeq gb.records) gb.min_range gb.max_range

/-- Rendering of an optional integer argument inside the constructor's
error message (Python renders `None` for an omitted argument). -/
def optIntStr : Option Int → String
  | none => "None"
  | some i => toString i

/-- The `ValueError` message raised by `Genbank.__init__` for an invalid
range (the f-string interpolates the raw constructor arguments and the
computed full genome length). -/
def rangeErrMsg (min_range? max_range? : Option Int) (full_len : Int) : String :=
  "min_range=" ++ optIntStr min_range? ++ ", max_range=" ++ optIntStr max_range? ++
    " is invalid. \nRange must be " ++
    "'0 <= min_range <= max_range <= " ++ toString full_len ++ "'"

/-- `self.full_genome_length` as computed during `Genbank.__init__`:
length of the concatenated (possibly reverse-transformed) record
sequences. -/
def fullLenOf (recs : List SeqRecord) (reverse : Bool) : Int :=
  ((concatSeq (if reverse then recTransform recs else recs)).length : Int)

/-- `Genbank.__init__` (range-validation part): defaults `min_range` to `0`
and `max_range` to the full genome length, checks
`0 <= min_range <= max_range <= full_genome_length`, and raises `ValueError`
with the descriptive message otherwise. -/
def Genbank.init (recs : List SeqRecord) (reverse : Bool)
    (min_range? max_range? : Option Int) : Except String Genbank :=
  let full_len : Int := fullLenOf recs reverse
  let min_range : Int := min_range?.getD 0
  let max_range : Int := max_range?.getD full_len
  if 0 ≤ min_range ∧ min_range ≤ max_range ∧ max_range ≤ full_len then
    Except.ok ⟨recs, reverse, min_range, max_range⟩
  else
    Except.error (rangeErrMsg min_range? max_range? full_len)

/-- `True` exactly on the `ok` constructor of an `Except` result
(a Python call that did not raise). -/
def isOkE {α : Type} : Except String α → Bool
  | Except.ok _ => true
  | Except.error _ => false

/-- `f.location.parts[-1]`: the last location part. -/
def Feature.lastPart (f : Feature) : Part :=
  f.restParts.getLastD f.firstPart

/-- Computed feature start in `Genbank.extract_features`: for a
reverse-strand (possibly multi-part `complement`+`join`) location the start
of the last part is used, otherwise the start of the first part; `base_len`
is the accumulated length of the preceding records' sequences. -/
def featStart (f : Feature) (base_len : Int) : Int :=
  if f.strand = -1 then f.lastPart.start + base_len else f.firstPart.start + base_len

/-- Computed feature end in `Genbank.extract_features` (see `featStart`):
for a reverse-strand location the end of the first part is used. -/
def featEnd (f : Feature) (base_len : Int) : Int :=
  if f.strand = -1 then f.firstPart.stop + base_len else f.lastPart.stop + base_len

/-- The target-strand filter of `Genbank.extract_features`
(`target_strand is not None and f.strand != target_strand` skips the
feature). -/
def strandOk (target_strand : Option Int) (strand : Int) : Bool :=
  match target_strand with
  | none => true
  | some t => strand == t

/-- A feature as returned by `Genbank.extract_features`:
`SeqFeature(location=FeatureLocation(start, end, strand), type=f.type,
qualifiers=f.qualifiers)` (of the qualifiers only the translation entry is
modelled). -/
structure OutFeature where
  start : Int
  stop : Int
  strand : Int
  ftype : String
  translation : Option String
deriving Repr, DecidableEq

/-- Tail of the per-feature loop body of `Genbank.extract_features` after
the range restriction: target-strand filter, optional re-basing of the
coordinates by `min_range`, and construction of the output feature. -/
def finishFeature (target_strand : Option Int) (fix_position : Bool)
    (min_range : Int) (f : Feature) (start1 end1 : Int) : Option OutFeature :=
  if strandOk target_strand f.strand then
    let s := if fix_position then start1 - min_range else start1
    let e := if fix_position then end1 - min_range else end1
    some ⟨s, e, f.strand, f.ftype, f.translation⟩
  else
    none

/-- One iteration of the per-feature loop of `Genbank.extract_features`:
type filter, pseudogene (missing translation) exclusion for CDS
extraction, start/end computation, range restriction in the strict or
permissive policy (with in-order clipping assignments in the permissive
branch), then `finishFeature`. Returns `none` when the loop `continue`s. -/
def processFeature (feature_type : String) (target_strand : Option Int)
    (fix_position : Bool) ( allow_partial : Bool) (min_range max_range : Int)
    (base_len : Int) (f : Feature) : Option OutFeature :=
  if f.ftype ≠ feature_type then
    none
  else if feature_type = "CDS" ∧ f.translation = none then
    none
  else
    let start0 := featStart f base_len
    let end0 := featEnd f base_len
    if allow_partial then
      if ¬(min_range ≤ start0 ∧ start0 ≤ max_range) ∧
         ¬(min_range ≤ end0 ∧ end0 ≤ max_range) then
        none
      else
        let start1 := if start0 ≤ min_range ∧ min_range ≤ end0 ∧ end0 ≤ max_range
          then min_range else start0
        let end1 := if min_range ≤ start1 ∧ start1 ≤ max_range ∧ max_range ≤ end0
          then max_range else end0
        finishFeature target_strand fix_position min_range f start1 end1
    else
      if ¬(min_range ≤ start0 ∧ start0 ≤ end0 ∧ end0 ≤ max_range) then
        none
      else
        finishFeature target_strand fix_position min_range f start0 end0

/-- The record loop of `Genbank.extract_features`: per record, process the
features (the type filter lives in `processFeature`), then advance
`base_len` by the record's sequence length. -/
def extractRecords (feature_type : String) (target_strand : Option Int)
    (fix_position : Bool) ( allow_partial : Bool) (min_range max_range : Int) :
    List SeqRecord → Int → List OutFeature
  | [], _ => []
  | r :: rs, base_len =>
      r.features.filterMap
          (processFeature feature_type target_strand fix_position allow_partial
            min_range max_range base_len) ++
        extractRecords feature_type target_strand fix_position allow_partial
          min_range max_range rs (base_len + (r.seq.length : Int))

/-- `Genbank.extract_features`. -/
def Genbank.extract_features (gb : Genbank) (feature_type : String)
    (target_strand : Option Int) (fix_position : Bool)
    ( allow_partial : Bool) : List OutFeature :=
  extractRecords feature_type target_strand fix_position allow_partial
    gb.min_range gb.max_range gb.records 0

/-- `f` with its translation qualifier removed (used to state that
non-CDS extraction ignores the translation qualifier). -/
def eraseTr (f : Feature) : Feature :=
  { f with translation := none }

/-- A record with every feature's translation qualifier removed. -/
def eraseTrRec (r : SeqRecord) : SeqRecord :=
  { r with features := r.features.map eraseTr }

/-- The translation-independent shape of an extracted feature. -/
def outShape (g : OutFeature) : Int × Int × Int × String :=
  (g.start, g.stop, g.strand, g.ftype)

/-- `G`/`g` count of a subsequence (`subseq.count("G") + subseq.count("g")`). -/
def countG (s : List Char) : Nat :=
  s.count 'G' + s.count 'g'

/-- `C`/`c` count of a subsequence. -/
def countC (s : List Char) : Nat :=
  s.count 'C' + s.count 'c'

/-- The sliding window subsequence at position `pos`:
`seq[pos - window_size//2 : pos + window_size//2]` clipped to the sequence
boundaries. -/
def windowSub (seq : List Char) (window_size : Nat) (pos : Nat) : List Char :=
  let window_start_pos : Int := (pos : Int) - ((window_size / 2 : Nat) : Int)
  let window_end_pos : Int := (pos : Int) + ((window_size / 2 : Nat) : Int)
  let window_start_pos := if window_start_pos < 0 then 0 else window_start_pos
  let window_end_pos := if window_end_pos > (seq.length : Int)
    then (seq.length : Int) else window_end_pos
  pySlice seq window_start_pos window_end_pos

/-- The GC-skew value of one window: `(g - c) / (g + c)` with the
`ZeroDivisionError` handler yielding `0.0`. -/
def gcSkewAt (seq : List Char) (window_size : Nat) (pos : Nat) : ℚ :=
  let sub := windowSub seq window_size pos
  let g := countG sub
  let c := countC sub
  if g + c = 0 then 0 else ((g : ℚ) - (c : ℚ)) / ((g : ℚ) + (c : ℚ))

/-- Modelled from the external library: `Bio.SeqUtils.GC` returns
`100 * (G+C+S counts, both cases) / length`, and `0.0` on an empty
sequence (its `ZeroDivisionError` handler). -/
def seqUtilsGC (s : List Char) : ℚ :=
  let gc := countG s + countC s + s.count 'S' + s.count 's'
  if s.length = 0 then 0 else 100 * (gc : ℚ) / ((s.length : Nat) : ℚ)

/-- The GC-content value of one window. -/
def gcContentAt (seq : List Char) (window_size : Nat) (pos : Nat) : ℚ :=
  seqUtilsGC (windowSub seq window_size pos)

/-- Python `range(0, stop, step)` for a positive step: the multiples of
`step` below `stop`. -/
def pyRangeUp (stop step : Nat) : List Nat :=
  List.range' 0 ((stop + step - 1) / step) step

/-- Position enumeration shared by `calc_gc_skew` and `calc_gc_content`:
`list(range(0, len(seq), step_size)) + [len(seq)]`, where Python's `range`
raises `ValueError` for a zero step. -/
def posListOf (seq_len step_size : Nat) : Except String (List Nat) :=
  if step_size = 0 then
    Except.error "range() arg 3 must not be zero"
  else
    Except.ok (pyRangeUp seq_len step_size ++ [seq_len])

/-- `Genbank.calc_gc_skew`: defaults `window_size` to `len//500` and
`step_size` to `len//1000`, enumerates the window positions, and returns
the position list together with the per-window skew list. -/
def Genbank.calc_gc_skew (gb : Genbank) (window_size? step_size? : Option Nat) :
    Except String (List Nat × List ℚ) :=
  let seq := gb.genome_seq
  let window_size := window_size?.getD (seq.length / 500)
  let step_size := step_size?.getD (seq.length / 1000)
  match posListOf seq.length step_size with
  | Except.error e => Except.error e
  | Except.ok pos_list => Except.ok (pos_list, pos_list.map (gcSkewAt seq window_size))

/-- `Genbank.calc_gc_content`: same structure as `calc_gc_skew` with the
per-window GC content value. -/
def Genbank.calc_gc_content (gb : Genbank) (window_size? step_size? : Option Nat) :
    Except String (List Nat × List ℚ) :=
  let seq := gb.genome_seq
  let window_size := window_size?.getD (seq.length / 500)
  let step_size := step_size?.getD (seq.length / 1000)
  match posListOf seq.length step_size with
  | Except.error e => Except.error e
  | Except.ok pos_list => Except.ok (pos_list, pos_list.map (gcContentAt seq window_size))

/-- An alignment coordinate record as consumed by the `run` workflow of
`scripts/mummer.py` (produced by the external MUMmer wrapper). -/
structure AlignCoord where
  ref_name : String
  ref_start : Int
  ref_end : Int
  query_name : String
  query_start : Int
  query_end : Int
  identity : ℚ
  is_inverted : Bool
deriving Repr, DecidableEq

/-- A link handed to `GenomeViz.add_link`: the two `(name, start, end)`
spans, the identity value `v`, and the colorbar minimum `vmin`. -/
structure Link where
  link1 : String × Int × Int
  link2 : String × Int × Int
  v : ℚ
  vmin : Int
deriving Repr, DecidableEq

/-- Python `int()` truncation (toward zero) of an exact float. -/
def pyIntTrunc (q : ℚ) : Int :=
  Int.tdiv q.num (q.den : Int)

/-- The link-construction stage of `run` in `scripts/mummer.py` (after
alignment-coordinate filtering): computes
`min_identity = int(min([ac.identity for ac in align_coords]))` — Python's
`min` raises `ValueError` on an empty sequence — then builds one link per
coordinate; only on success does the workflow go on to plot and save the
figure. -/
def mummer_set_links (align_coords : List AlignCoord) : Except String (List Link) :=
  match align_coords with
  | [] => Except.error "min() arg is an empty sequence"
  | a :: rest =>
      let m : ℚ := rest.foldl (fun acc ac => min acc ac.identity) a.identity
      let min_identity : Int := pyIntTrunc m
      Except.ok ((a :: rest).map fun ac =>
        ⟨(ac.ref_name, ac.ref_start, ac.ref_end),
         (ac.query_name, ac.query_start, ac.query_end),
         ac.identity, min_identity⟩)

/-! Concrete sample data used in counterexamples and witnesses. -/

/-- A forward-strand CDS feature spanning `[5, 25]`. -/
def featSpan : Feature := ⟨"CDS", 1, ⟨5, 25⟩, [], some "M"⟩

/-- A `Genbank` object over a 30-base record containing `featSpan`, with
configured range `[10, 20]` (strictly contained in the feature). -/
def gbSpan : Genbank := ⟨[⟨List.replicate 30 'A', [featSpan]⟩], false, 10, 20⟩

/-- A reverse-strand `complement`+`join` CDS whose parts are ordered so
that the computed start (start of the last part, `25`) exceeds the
computed end (end of the first part, `15`) — the rare case the code
handles explicitly. -/
def featWrap : Feature := ⟨"CDS", -1, ⟨12, 15⟩, [⟨25, 28⟩], some "M"⟩

/-- A `Genbank` object over a 30-base record containing `featWrap`, with
configured range `[10, 20]`. -/
def gbWrap : Genbank := ⟨[⟨List.replicate 30 'A', [featWrap]⟩], false, 10, 20⟩

/-- The `featWrap` analogue with feature type `gene` (no translation). -/
def featWrapGene : Feature := ⟨"gene", -1, ⟨12, 15⟩, [⟨25, 28⟩], none⟩

/-- A `Genbank` object over a 30-base record containing `featWrapGene`,
with configured range `[10, 20]`. -/
def gbWrapGene : Genbank := ⟨[⟨List.replicate 30 'A', [featWrapGene]⟩], false, 10, 20⟩

/-- A forward-strand `gene` feature on `[15, 25]`, partially overlapping
the range `[10, 20]`. -/
def featHang : Feature := ⟨"gene", 1, ⟨15, 25⟩, [], none⟩

/-- A record list with one in-range `gene` feature on `[12, 18]`. -/
def recsIn : List SeqRecord := [⟨[], [⟨"gene", 1, ⟨12, 18⟩, [], none⟩]⟩]

/-- The output feature extracted from `recsIn` without re-basing. -/
def outIn : OutFeature := ⟨12, 18, 1, "gene", none⟩

/-- A `Genbank` object over the sequence `ACGT` with range `[1, 3]`. -/
def gbACGT : Genbank := ⟨[⟨['A', 'C', 'G', 'T'], []⟩], false, 1, 3⟩

/-- A `Genbank` object over the G/C-free sequence `AT` with range `[0, 2]`. -/
def gbAT : Genbank := ⟨[⟨['A', 'T'], []⟩], false, 0, 2⟩

/-- A record list with one translated CDS feature on `[2, 5]`. -/
def recsCds : List SeqRecord := [⟨[], [⟨"CDS", 1, ⟨2, 5⟩, [], some "MK"⟩]⟩]

/-- The output feature extracted from `recsCds` without re-basing. -/
def outCds : OutFeature := ⟨2, 5, 1, "CDS", some "MK"⟩

/-!
Theorems. The helper lemmas come first, then one theorem per claim with
its witness or counterexample.
-/

/-- C4: `Genbank` construction raises `ValueError` exactly when the
(defaulted) range violates `0 ≤ min_range ≤ max_range ≤ full genome
length`; the message states the required invariant; on success the stored
bounds satisfy the invariant; fully omitted bounds always pass. -/
theorem genbank_init_range_validation (recs : List SeqRecord) (reverse : Bool)
    (min_range? max_range? : Option Int) :
    ((∃ e, Genbank.init recs reverse min_range? max_range? = Except.error e) ↔
      ¬(0 ≤ min_range?.getD 0 ∧
        min_range?.getD 0 ≤ max_range?.getD (fullLenOf recs reverse) ∧
        max_range?.getD (fullLenOf recs reverse) ≤ fullLenOf recs reverse)) ∧
    (∀ e, Genbank.init recs reverse min_range? max_range? = Except.error e →
      e = rangeErrMsg min_range? max_range? (fullLenOf recs reverse)) ∧
    (∀ gb, Genbank.init recs reverse min_range? max_range? = Except.ok gb →
      0 ≤ gb.min_range ∧ gb.min_range ≤ gb.max_range ∧
        gb.max_range ≤ ((concatSeq gb.records).length : Int)) ∧
    isOkE (Genbank.init recs reverse none none) = true := by
  have hfull : (0 : Int) ≤ fullLenOf recs reverse := by
    unfold fullLenOf
    exact Int.natCast_nonneg _
  refine ⟨⟨?_, ?_⟩, ?_, ?_, ?_⟩
  · rintro ⟨e, he⟩ hc
    simp only [Genbank.init] at he
    rw [if_pos hc] at he
    simp at he
  · intro hc
    simp only [Genbank.init]
    rw [if_neg hc]
    exact ⟨_, rfl⟩
  · intro e he
    simp only [Genbank.init] at he
    split_ifs at he with h
    injection he with he2
    exact he2.symm
  · intro gb hgb
    simp only [Genbank.init] at hgb
    split_ifs at hgb with h
    injection hgb with hgb2
    subst hgb2
    refine ⟨h.1, h.2.1, ?_⟩
    simpa [Genbank.records, fullLenOf] using h.2.2
  · simp only [Genbank.init]
    rw [if_pos ⟨by simp, by simpa using hfull, by simp⟩]
    rfl

/-- C4 witness: an explicitly invalid range (`min_range = -1`) makes
construction fail. -/
theorem genbank_init_range_validation_witness :
    ∃ e, Genbank.init [] false (some (-1)) none = Except.error e :=
  (genbank_init_range_validation [] false (some (-1)) none).1.mpr (by decide)

/-- C5: for a valid configured range, `genome_seq` has length
`max_range - min_range`. -/
theorem genome_seq_length_eq (gb : Genbank)
    (h0 : 0 ≤ gb.min_range) (h1 : gb.min_range ≤ gb.max_range)
    (h2 : gb.max_range ≤ ((concatSeq gb.records).length : Int)) :
    ((gb.genome_seq.length : Int)) = gb.max_range - gb.min_range := by
  simp only [Genbank.genome_seq, pySlice, List.length_take, List.length_drop]
  split_ifs <;> omega

/-- C5 witness: the `ACGT` genome restricted to `[1, 3]` has genome
sequence length `2`. -/
theorem genome_seq_length_eq_witness :
    ((gbACGT.genome_seq.length : Int)) = gbACGT.max_range - gbACGT.min_range :=
  genome_seq_length_eq gbACGT (by decide) (by decide) (by decide)

theorem featStart_shift (f : Feature) (bl : Int) :
    featStart f bl = featStart f 0 + bl := by
  simp only [featStart]
  split_ifs <;> omega

theorem featEnd_shift (f : Feature) (bl : Int) :
    featEnd f bl = featEnd f 0 + bl := by
  simp only [featEnd]
  split_ifs <;> omega

/-- Membership in the record loop comes from one feature of one record
processed at some accumulated base length. -/
theorem mem_extractRecords {ft : String} {ts : Option Int} {fx b : Bool}
    {mn mx : Int} :
    ∀ {recs : List SeqRecord} {bl : Int} {g : OutFeature},
      g ∈ extractRecords ft ts fx b mn mx recs bl →
      ∃ bl' r f, r ∈ recs ∧ f ∈ r.features ∧
        processFeature ft ts fx b mn mx bl' f = some g
  | [], bl, g, h => by simp [extractRecords] at h
  | r :: rs, bl, g, h => by
    simp only [extractRecords, List.mem_append, List.mem_filterMap] at h
    rcases h with ⟨f, hf, hp⟩ | h
    · exact ⟨bl, r, f, List.mem_cons_self r rs, hf, hp⟩
    · obtain ⟨bl', r', f', hr', hf', hp'⟩ := mem_extractRecords h
      exact ⟨bl', r', f', List.mem_cons_of_mem r hr', hf', hp'⟩

theorem processFeature_strict_bounds {ft : String} {ts : Option Int} {fx : Bool}
    {mn mx bl : Int} {f : Feature} {g : OutFeature}
    (h : processFeature ft ts fx false mn mx bl f = some g) :
    (mn - (if fx then mn else 0) ≤ g.start ∧ g.start ≤ g.stop ∧
      g.stop ≤ mx - (if fx then mn else 0)) := by
  obtain ⟨gs, ge, gst, gty, gtr⟩ := g
  dsimp only
  simp only [processFeature, finishFeature, Bool.false_eq_true, if_false] at h
  split_ifs at h ⊢ <;>
    first
      | exact Option.noConfusion h
      | (simp only [Option.some.injEq, OutFeature.mk.injEq] at h
         obtain ⟨h1, h2, h3, h4, h5⟩ := h
         refine ⟨?_, ?_, ?_⟩ <;> omega)

theorem processFeature_partial_bounds {ft : String} {ts : Option Int} {fx : Bool}
    {mn mx bl : Int} {f : Feature} {g : OutFeature}
    (hord : featStart f bl ≤ featEnd f bl)
    (h : processFeature ft ts fx true mn mx bl f = some g) :
    mn - (if fx then mn else 0) ≤ g.start ∧ g.start ≤ mx - (if fx then mn else 0) ∧
      mn - (if fx then mn else 0) ≤ g.stop ∧ g.stop ≤ mx - (if fx then mn else 0) := by
  obtain ⟨gs, ge, gst, gty, gtr⟩ := g
  dsimp only
  simp only [processFeature, finishFeature, eq_self_iff_true, if_true] at h
  split_ifs at h ⊢ <;>
    first
      | exact Option.noConfusion h
      | (simp only [Option.some.injEq, OutFeature.mk.injEq] at h
         obtain ⟨h1, h2, h3, h4, h5⟩ := h
         refine ⟨?_, ?_, ?_, ?_⟩ <;> omega)

/-- C3 (amended): with re-basing disabled, strict extraction
unconditionally returns only features with original `start ≤ end` inside
the range; permissive extraction keeps both clipped endpoints inside the
range provided every feature's computed interval satisfies `start ≤ end`
(the rare reverse-strand wrap-around case excluded). -/
theorem extract_range_bounds (ft : String) (ts : Option Int) (mn mx : Int)
    (recs : List SeqRecord) (bl : Int) :
    (∀ g ∈ extractRecords ft ts false false mn mx recs bl,
      mn ≤ g.start ∧ g.start ≤ g.stop ∧ g.stop ≤ mx) ∧
    ((∀ r ∈ recs, ∀ f ∈ r.features, featStart f 0 ≤ featEnd f 0) →
      ∀ g ∈ extractRecords ft ts false true mn mx recs bl,
        mn ≤ g.start ∧ g.start ≤ mx ∧ mn ≤ g.stop ∧ g.stop ≤ mx) := by
  constructor
  · intro g hg
    obtain ⟨bl', r, f, hr, hf, hp⟩ := mem_extractRecords hg
    have := processFeature_strict_bounds hp
    simpa using this
  · intro hord g hg
    obtain ⟨bl', r, f, hr, hf, hp⟩ := mem_extractRecords hg
    have hof : featStart f bl' ≤ featEnd f bl' := by
      rw [featStart_shift, featEnd_shift]
      have := hord r hr f hf
      omega
    simpa using processFeature_partial_bounds hof hp

/-- C3 witness: a `[12, 18]` feature inside range `[10, 20]` is returned
with both endpoints inside the range (strict policy, no re-basing). -/
theorem extract_range_bounds_witness :
    10 ≤ outIn.start ∧ outIn.start ≤ outIn.stop ∧ outIn.stop ≤ 20 :=
  (extract_range_bounds "gene" none 10 20 recsIn 0).1 outIn (by decide)

/-- C3 counterexample: with `fix_position=False` and `allow_partial=True`,
the reverse-strand wrap-around feature `featWrap` (computed interval
`[25, 15]`) is returned with start `25` outside the configured range
`[10, 20]`. -/
theorem extract_partial_out_of_range_case :
    gbWrap.extract_features "CDS" none false true =
      [⟨25, 15, -1, "CDS", some "M"⟩] ∧
    ¬((25 : Int) ≤ gbWrap.max_range) := by
  constructor
  · rfl
  · decide

/-- C2 (amended): under the permissive policy a feature (passing the
type/translation/strand filters) whose computed interval `[start, end]`
(`start ≤ end`) has at least one endpoint inside `[min_range, max_range]`
is kept, clipped to `[max(start, min_range), min(end, max_range)]`; a
feature with neither endpoint inside the range — including one strictly
containing the whole range — is skipped. -/
theorem extract_partial_overlap_clip (ft : String) (ts : Option Int) (fx : Bool)
    (mn mx bl : Int) (f : Feature)
    (htype : f.ftype = ft)
    (hcds : ¬(ft = "CDS" ∧ f.translation = none))
    (hstrand : strandOk ts f.strand = true)
    (hord : featStart f bl ≤ featEnd f bl) :
    ((processFeature ft ts fx true mn mx bl f).isSome = true ↔
      ((mn ≤ featStart f bl ∧ featStart f bl ≤ mx) ∨
        (mn ≤ featEnd f bl ∧ featEnd f bl ≤ mx))) ∧
    (∀ g, processFeature ft ts fx true mn mx bl f = some g →
      g.start = (if fx then max (featStart f bl) mn - mn else max (featStart f bl) mn) ∧
      g.stop = (if fx then min (featEnd f bl) mx - mn else min (featEnd f bl) mx)) := by
  constructor
  · simp only [processFeature, finishFeature, htype, hstrand]
    split_ifs <;> simp_all <;> omega
  · intro g hg
    obtain ⟨gs, ge, gst, gty, gtr⟩ := g
    dsimp only
    simp only [processFeature, finishFeature, htype, hstrand] at hg
    split_ifs at hg ⊢ <;>
      first
        | exact Option.noConfusion hg
        | (simp only [Option.some.injEq, OutFeature.mk.injEq] at hg
           obtain ⟨h1, h2, h3, h4, h5⟩ := hg
           refine ⟨?_, ?_⟩ <;> omega)

/-- C2 witness: the `[15, 25]` feature partially overlapping range
`[10, 20]` is kept by the permissive policy. -/
theorem extract_partial_overlap_clip_witness :
    (processFeature "gene" none false true 10 20 0 featHang).isSome = true :=
  (extract_partial_overlap_clip "gene" none false 10 20 0 featHang rfl
      (by decide) rfl (by decide)).1.mpr (Or.inl (by decide))

/-- C2 counterexample: the `[5, 25]` feature strictly containing the
configured range `[10, 20]` partially overlaps it (`5 < 20` and
`10 < 25`) yet permissive extraction drops it. -/
theorem extract_partial_spanning_dropped :
    gbSpan.extract_features "CDS" none true true = [] ∧
    featStart featSpan 0 < gbSpan.max_range ∧
    gbSpan.min_range < featEnd featSpan 0 := by
  refine ⟨rfl, by decide, by decide⟩

theorem processFeature_cds_translation {ts : Option Int} {fx b : Bool}
    {mn mx bl : Int} {f : Feature} {g : OutFeature}
    (h : processFeature "CDS" ts fx b mn mx bl f = some g) :
    g.translation ≠ none := by
  obtain ⟨gs, ge, gst, gty, gtr⟩ := g
  dsimp only
  simp only [processFeature, finishFeature] at h
  split_ifs at h <;>
    first
      | exact Option.noConfusion h
      | (simp only [Option.some.injEq, OutFeature.mk.injEq] at h
         obtain ⟨h1, h2, h3, h4, h5⟩ := h
         subst h5
         simp_all)

theorem processFeature_ignores_translation {ft : String} (hft : ft ≠ "CDS")
    (ts : Option Int) (fx b : Bool) (mn mx bl : Int) (f : Feature) :
    Option.map outShape (processFeature ft ts fx b mn mx bl (eraseTr f)) =
      Option.map outShape (processFeature ft ts fx b mn mx bl f) := by
  have e1 : (eraseTr f).ftype = f.ftype := rfl
  have e2 : (eraseTr f).translation = (none : Option String) := rfl
  have e3 : ∀ blx : Int, featStart (eraseTr f) blx = featStart f blx := fun _ => rfl
  have e4 : ∀ blx : Int, featEnd (eraseTr f) blx = featEnd f blx := fun _ => rfl
  have hfin : ∀ s e : Int,
      Option.map outShape (finishFeature ts fx mn (eraseTr f) s e) =
        Option.map outShape (finishFeature ts fx mn f s e) := by
    intro s e
    simp only [finishFeature, eraseTr]
    split_ifs <;> rfl
  simp only [processFeature, e1, e2, e3, e4, hft, and_true, false_and, if_false,
    apply_ite (Option.map outShape), Option.map_none', hfin]

theorem filterMap_outShape_congr {q p : Feature → Option OutFeature}
    (hqp : ∀ f, Option.map outShape (q f) = Option.map outShape (p f)) :
    ∀ l : List Feature, (l.filterMap q).map outShape = (l.filterMap p).map outShape := by
  intro l
  induction l with
  | nil => simp
  | cons f t ih =>
    have hf := hqp f
    cases hp : p f with
    | none =>
      rw [hp] at hf
      cases hq : q f with
      | none => simp [List.filterMap_cons, hp, hq, ih]
      | some g => rw [hq] at hf; simp at hf
    | some g =>
      rw [hp] at hf
      cases hq : q f with
      | none => rw [hq] at hf; simp at hf
      | some g2 =>
        rw [hq] at hf
        simp only [Option.map_some', Option.some.injEq] at hf
        simp [List.filterMap_cons, hp, hq, ih, hf]

theorem extractRecords_ignores_translation {ft : String} (hft : ft ≠ "CDS")
    (ts : Option Int) (fx b : Bool) (mn mx : Int) :
    ∀ (recs : List SeqRecord) (bl : Int),
      (extractRecords ft ts fx b mn mx (recs.map eraseTrRec) bl).map outShape =
        (extractRecords ft ts fx b mn mx recs bl).map outShape
  | [], bl => by simp [extractRecords]
  | r :: rs, bl => by
    have hrec := extractRecords_ignores_translation hft ts fx b mn mx rs
      (bl + (r.seq.length : Int))
    have hfm := filterMap_outShape_congr
      (fun f => processFeature_ignores_translation hft ts fx b mn mx bl f) r.features
    simp only [List.map_cons, extractRecords, List.map_append, eraseTrRec,
      List.filterMap_map]
    rw [hrec]
    simp only [Function.comp_def]
    rw [hfm]

/-- C8: CDS extraction excludes features lacking a translation qualifier
(pseudogenes); for any other feature type the extraction result (up to the
pass-through translation qualifier itself) is unchanged when every
translation qualifier is removed, i.e. no translation-based exclusion is
applied. -/
theorem cds_translation_filter :
    (∀ (ts : Option Int) (fx b : Bool) (mn mx bl : Int) (recs : List SeqRecord),
      ∀ g ∈ extractRecords "CDS" ts fx b mn mx recs bl, g.translation ≠ none) ∧
    (∀ (ft : String), ft ≠ "CDS" →
      ∀ (ts : Option Int) (fx b : Bool) (mn mx bl : Int) (recs : List SeqRecord),
        (extractRecords ft ts fx b mn mx (recs.map eraseTrRec) bl).map outShape =
          (extractRecords ft ts fx b mn mx recs bl).map outShape) := by
  constructor
  · intro ts fx b mn mx bl recs g hg
    obtain ⟨bl', r, f, hr, hf, hp⟩ := mem_extractRecords hg
    exact processFeature_cds_translation hp
  · intro ft hft ts fx b mn mx bl recs
    exact extractRecords_ignores_translation hft ts fx b mn mx recs bl

/-- C8 witness: the translated CDS of `recsCds` is extracted and indeed
carries a translation. -/
theorem cds_translation_filter_witness : outCds.translation ≠ none :=
  cds_translation_filter.1 none false true 0 10 0 recsCds outCds (by decide)

/-- C10: strict extraction only returns features with `start ≤ end`;
permissive extraction does not guarantee the ordering — on `gbWrapGene` it
returns a feature with start `25` and end `15`. -/
theorem extract_strict_ordering :
    (∀ (ft : String) (ts : Option Int) (fx : Bool) (mn mx bl : Int)
        (recs : List SeqRecord),
      ∀ g ∈ extractRecords ft ts fx false mn mx recs bl, g.start ≤ g.stop) ∧
    (gbWrapGene.extract_features "gene" none false true =
      [⟨25, 15, -1, "gene", none⟩] ∧ (15 : Int) < 25) := by
  constructor
  · intro ft ts fx mn mx bl recs g hg
    obtain ⟨bl', r, f, hr, hf, hp⟩ := mem_extractRecords hg
    exact (processFeature_strict_bounds hp).2.1
  · exact ⟨rfl, by decide⟩

/-- C10 witness: the strict-policy ordering instantiated on the concrete
CDS extraction from `recsCds`. -/
theorem extract_strict_ordering_witness : outCds.start ≤ outCds.stop :=
  extract_strict_ordering.1 "CDS" none true 0 10 0 recsCds outCds (by decide)

/-- C7: every window value appended by `calc_gc_skew` is
`gcSkewAt` of its position, and a window with zero `G`/`g` and zero
`C`/`c` count yields exactly `0` (the division-by-zero handler). -/
theorem calc_gc_skew_zero_window (gb : Genbank) (window_size? step_size? : Option Nat)
    (ps : List Nat) (vs : List ℚ)
    (hok : gb.calc_gc_skew window_size? step_size? = Except.ok (ps, vs)) :
    vs = ps.map (gcSkewAt gb.genome_seq (window_size?.getD (gb.genome_seq.length / 500))) ∧
    (∀ pos : Nat,
      countG (windowSub gb.genome_seq (window_size?.getD (gb.genome_seq.length / 500)) pos) = 0 →
      countC (windowSub gb.genome_seq (window_size?.getD (gb.genome_seq.length / 500)) pos) = 0 →
      gcSkewAt gb.genome_seq (window_size?.getD (gb.genome_seq.length / 500)) pos = 0) := by
  constructor
  · simp only [Genbank.calc_gc_skew] at hok
    split at hok
    · exact Except.noConfusion hok
    · injection hok with h
      rw [Prod.mk.injEq] at h
      obtain ⟨hps, hvs⟩ := h
      subst hps
      subst hvs
      rfl
  · intro pos h1 h2
    simp [gcSkewAt, h1, h2]

/-- C7 witness: the first window of the G/C-free genome `AT` has skew `0`. -/
theorem calc_gc_skew_zero_window_witness : gcSkewAt gbAT.genome_seq 2 0 = 0 :=
  (calc_gc_skew_zero_window gbAT (some 2) (some 1) [0, 1, 2] [0, 0, 0]
      (by rfl)).2 0 (by decide) (by decide)

/-- C9: with default window/step parameters the sliding-window operations
succeed exactly when the (range-restricted) genome sequence has length at
least `1000` (the default step `len // 1000` is zero below that and the
position enumeration raises); any explicit positive step makes them total;
on success the position and value lists have equal length. -/
theorem gc_sliding_window_totality (gb : Genbank) :
    (isOkE (gb.calc_gc_skew none none) = true ↔ 1000 ≤ gb.genome_seq.length) ∧
    (isOkE (gb.calc_gc_content none none) = true ↔ 1000 ≤ gb.genome_seq.length) ∧
    (∀ (w? : Option Nat) (s : Nat), 0 < s →
      isOkE (gb.calc_gc_skew w? (some s)) = true ∧
      isOkE (gb.calc_gc_content w? (some s)) = true) ∧
    (∀ (w? s? : Option Nat) (ps : List Nat) (vs : List ℚ),
      gb.calc_gc_skew w? s? = Except.ok (ps, vs) → ps.length = vs.length) ∧
    (∀ (w? s? : Option Nat) (ps : List Nat) (vs : List ℚ),
      gb.calc_gc_content w? s? = Except.ok (ps, vs) → ps.length = vs.length) := by
  refine ⟨?_, ?_, ?_, ?_, ?_⟩
  · by_cases h : gb.genome_seq.length / 1000 = 0
    · simp [Genbank.calc_gc_skew, posListOf, h, isOkE]
      omega
    · simp [Genbank.calc_gc_skew, posListOf, h, isOkE]
      omega
  · by_cases h : gb.genome_seq.length / 1000 = 0
    · simp [Genbank.calc_gc_content, posListOf, h, isOkE]
      omega
    · simp [Genbank.calc_gc_content, posListOf, h, isOkE]
      omega
  · intro w? s hs
    have hs2 : s ≠ 0 := by omega
    constructor <;>
      simp [Genbank.calc_gc_skew, Genbank.calc_gc_content, posListOf, hs2, isOkE]
  · intro w? s? ps vs hok
    simp only [Genbank.calc_gc_skew] at hok
    split at hok
    · exact Except.noConfusion hok
    · injection hok with h
      rw [Prod.mk.injEq] at h
      obtain ⟨hps, hvs⟩ := h
      subst hps
      subst hvs
      simp
  · intro w? s? ps vs hok
    simp only [Genbank.calc_gc_content] at hok
    split at hok
    · exact Except.noConfusion hok
    · injection hok with h
      rw [Prod.mk.injEq] at h
      obtain ⟨hps, hvs⟩ := h
      subst hps
      subst hvs
      simp

/-- C9 witness: an explicit positive step size makes `calc_gc_skew` succeed
on the short genome `AT`. -/
theorem gc_sliding_window_totality_witness :
    isOkE (gbAT.calc_gc_skew none (some 1)) = true :=
  ((gc_sliding_window_totality gbAT).2.2.1 none 1 (by decide)).1

/-- C1 (code bug evaluation): with an empty filtered alignment-coordinate
list the link-construction stage of `run` fails with Python's
empty-`min()` `ValueError` instead of proceeding to plot an empty link
set. -/
theorem mummer_empty_align_error :
    mummer_set_links [] = Except.error "min() arg is an empty sequence" := rfl

end PyGenomeViz
